import Mathlib

/-!
Verification of the turn-resolution and grid-movement core of `fivee-rs`,
a tactical grid-based game built on an entity-component host engine.

The repository sources under verification are the UI systems
(`plugin_ui/src/systems.rs`), the asset loader (`common/src/assets.rs`)
and the plugin wiring.  The core components the spec describes (Grid,
Token, Round, RoundCommand, the movement rules engine and the command
executor) live in the `common` crate whose source is not available here;
those parts are modelled from the spec, as marked on each definition.
-/

namespace Fivee

/-- Entity identifier of the host engine (`bevy::Entity`), modelled as a
natural number. -/
abbrev Entity := Nat

/-- A 2D integer grid coordinate (`bevy::IVec2`). -/
structure IVec2 where
  x : Int
  y : Int
deriving DecidableEq

/-- Modelled from the spec: a Token is "a participant placed on the grid
with identity, display name, and a movement budget derived from its
statblock" whose remaining budget is spent by moves; the `Token` struct of
the missing `common` crate.  `mov` is the remaining movement budget and
`mov_max` the per-turn budget, both in grid-cost units. -/
structure Token where
  name : String
  grid_pos : IVec2
  mov_max : Nat
  mov : Nat
deriving DecidableEq

/-- Modelled from the spec: the Grid is a "rectangular extent (width,
height) ... per-cell passability/terrain cost; per-cell occupancy (which
token, if any, occupies it)"; the `Grid` resource of the missing `common`
crate.  Per-cell movement cost is at least one cost unit per cell
(`cost_pos`), matching the spec's cell-unit movement budgets. -/
structure Grid where
  width : Nat
  height : Nat
  cost : IVec2 → Nat
  cost_pos : ∀ c, 0 < cost c
  occupant : IVec2 → Option Entity

/-- Bounds check used by every grid query: "all queries must bounds-check";
out-of-bounds cells are "treated as 'no cell'". -/
def Grid.in_bounds (g : Grid) (p : IVec2) : Bool :=
  0 ≤ p.x && p.x < (g.width : Int) && 0 ≤ p.y && p.y < (g.height : Int)

/-- Modelled from the spec: `RoundCommand` is a "closed variant set" with
`MoveFar { token, destination }` and `GiveTurn { token }`; constructed in
the UI systems via `RoundCommand::move_far(entity, grid_pos)` and
`RoundCommand::give_turn(entity)`. -/
inductive RoundCommand where
  | move_far (entity : Entity) (destination : IVec2)
  | give_turn (entity : Entity)
deriving DecidableEq

/-- Modelled from the spec: the Round holds an "optional current turn
owner (token identity), an ordered double-ended queue of `RoundCommand`";
the `Round` resource of the missing `common` crate.  The queue is a list
whose head is the queue front. -/
structure Round where
  turn_owner : Option Entity
  commands : List RoundCommand
deriving DecidableEq

/-- Modelled from the spec: "`push_front_command(cmd)`: inserts at the
head; used for commands that must pre-empt". Never fails. -/
def Round.push_front_command (r : Round) (cmd : RoundCommand) : Round :=
  { r with commands := cmd :: r.commands }

/-- Modelled from the spec: "`push_back_command(cmd)`: inserts at the
tail; used for commands that should run after currently queued work".
Never fails. -/
def Round.push_back_command (r : Round) (cmd : RoundCommand) : Round :=
  { r with commands := r.commands ++ [cmd] }

/-- Modelled from the spec: "`is_executing() -> bool`: true whenever any
command is pending or in flight".  Command application is atomic within a
tick of this model, so between ticks the flag is exactly queue
non-emptiness. -/
def Round.is_executing (r : Round) : Bool :=
  !r.commands.isEmpty

namespace rules

/-- One path segment, "exposing at least the destination cell of that
step (`to`)"; consumed as `cell.to` by `waypoint_system`. -/
structure Step where
  «to» : IVec2
deriving DecidableEq

/-- A search entry: a cell together with the accumulated cost to reach it
and the segment sequence leading there from the origin. -/
structure Reached where
  cell : IVec2
  cost : Nat
  path : List Step
deriving DecidableEq

/-- Total movement cost of a path: the sum of the per-cell costs of the
cells stepped onto (edge weight = destination cell's movement cost). -/
def path_cost (g : Grid) (p : List Step) : Nat :=
  (p.map fun s => g.cost s.to).sum

/-- The 4-connected neighbourhood of a cell. -/
def neighbors (p : IVec2) : List IVec2 :=
  [⟨p.x + 1, p.y⟩, ⟨p.x - 1, p.y⟩, ⟨p.x, p.y + 1⟩, ⟨p.x, p.y - 1⟩]

/-- Strict priority order on search entries: lower cost first, ties broken
"by stable coordinate ordering" so results are deterministic. -/
def lessKey (a b : Reached) : Bool :=
  a.cost < b.cost ||
    (a.cost == b.cost &&
      (a.cell.x < b.cell.x || (a.cell.x == b.cell.x && a.cell.y < b.cell.y)))

/-- Extract the minimum-priority entry (first argument is the best seen so
far) and return it with the remaining entries. -/
def pickMinAux (best : Reached) : List Reached → Reached × List Reached
  | [] => (best, [])
  | x :: xs =>
    if lessKey x best then
      let (m, rest) := pickMinAux x xs
      (m, best :: rest)
    else
      let (m, rest) := pickMinAux best xs
      (m, x :: rest)

/-- Pop the minimum-priority entry of a frontier, if any. -/
def pickMin : List Reached → Option (Reached × List Reached)
  | [] => none
  | x :: xs => some (pickMinAux x xs)

/-- Relax the out-edges of a settled entry: each in-bounds, unoccupied
4-neighbour whose accumulated cost stays within the budget.  Occupied
cells are fully blocking: "never passed through" and "excluded as a
destination" (explicit blocking policy per the spec's open question). -/
def expand (g : Grid) (budget : Nat) (r : Reached) : List Reached :=
  (neighbors r.cell).filterMap fun n =>
    if g.in_bounds n && (g.occupant n).isNone then
      let c := r.cost + g.cost n
      if c ≤ budget then some ⟨n, c, r.path ++ [⟨n⟩]⟩ else none
    else none

/-- Modelled from the spec: "uniform-cost / Dijkstra-style expansion from
the origin cell over the 4-connected neighbor graph".  Settles the
cheapest frontier entry each iteration, skipping cells already settled;
fuel bounds the iteration count. -/
def loop (g : Grid) (budget : Nat) : Nat → List Reached → List Reached → List Reached
  | 0, settled, _ => settled
  | fuel + 1, settled, frontier =>
    match pickMin frontier with
    | none => settled
    | some (r, rest) =>
      if settled.any fun s => s.cell == r.cell then
        loop g budget fuel settled rest
      else
        loop g budget fuel (settled ++ [r]) (rest ++ expand g budget r)

/-- Fuel sufficient to drain the frontier: each settled cell (at most one
per grid cell, plus the origin) contributes at most four frontier
entries. -/
def search_fuel (g : Grid) : Nat :=
  4 * (g.width * g.height + 1) + 2

/-- Dijkstra search from the token's current position, bounded by its
remaining movement budget. -/
def search (token : Token) (g : Grid) : List Reached :=
  loop g token.mov (search_fuel g) [] [⟨token.grid_pos, 0, []⟩]

/-- Modelled from the spec: "`reachable_cells(token, grid) -> set of
(cell, cost)`: computes every cell reachable from the token's current
position without exceeding its movement budget"; `rules::get_reachable_cells`
of the missing `common` crate, consumed by `highlight_system`. -/
def get_reachable_cells (token : Token) (g : Grid) : List (IVec2 × Nat) :=
  (search token g).map fun r => (r.cell, r.cost)

/-- Modelled from the spec: "`path(token, grid, destination) -> ordered
sequence of path-segments`; if the destination is unreachable within
budget, returns an empty sequence"; `rules::get_path` of the missing
`common` crate, consumed by `waypoint_system` and the executor. -/
def get_path (token : Token) (g : Grid) (destination : IVec2) : List Step :=
  match (search token g).find? fun r => r.cell == destination with
  | some r => r.path
  | none => []

end rules

/-- The shared game state the executor mutates: the grid, the live tokens
keyed by entity, and the round. -/
structure GameState where
  grid : Grid
  tokens : List (Entity × Token)
  round : Round

/-- Assoc-list lookup of a live token, mirroring `Query::get(entity)`:
`none` when the token has despawned. -/
def GameState.token? (s : GameState) (e : Entity) : Option Token :=
  (s.tokens.find? fun p => p.1 = e).map Prod.snd

/-- Modelled from the spec: the next turn owner "per the game's turn-order
policy (external collaborator: turn order table)", modelled as the next
live token after `e` in spawn order, wrapping around. -/
def next_owner (tokens : List (Entity × Token)) (e : Entity) : Option Entity :=
  match tokens.findIdx? fun p => p.1 = e with
  | none => none
  | some i =>
    match tokens.get? ((i + 1) % tokens.length) with
    | none => none
    | some p => some p.1

/-- Modelled from the spec, §4.3: apply one dequeued command to the game
state.  `MoveFar`: recompute the path; empty path (unreachable, stale or
occupied destination) discards the command; an occupied final cell at
apply time "fails the whole move" with no mutation; otherwise the token
advances to the path's final cell, grid occupancy is updated (old cell
cleared, destination claimed) and the path's total cost is spent from the
token's movement budget.  `GiveTurn`: a no-op unless the token is the
current turn owner and still alive; otherwise the turn passes to the next
owner, whose movement budget is reset. -/
def apply_command (s : GameState) : RoundCommand → GameState
  | .move_far e dest =>
    match s.token? e with
    | none => s
    | some tok =>
      let p := rules.get_path tok s.grid dest
      match p.getLast? with
      | none => s
      | some last =>
        if (s.grid.occupant last.to).isSome then s
        else
          { s with
            grid := { s.grid with
              occupant := fun c =>
                if c = last.to then some e
                else if c = tok.grid_pos then none
                else s.grid.occupant c }
            tokens := s.tokens.map fun q =>
              if q.1 = e then
                (q.1, { q.2 with
                  grid_pos := last.to
                  mov := q.2.mov - rules.path_cost s.grid p })
              else q }
  | .give_turn e =>
    if s.round.turn_owner = some e then
      match s.token? e with
      | none => s
      | some _ =>
        let next := next_owner s.tokens e
        { s with
          round := { s.round with turn_owner := next }
          tokens := s.tokens.map fun q =>
            if some q.1 = next then (q.1, { q.2 with mov := q.2.mov_max })
            else q }
    else s

/-- Modelled from the spec: each invocation, "if the queue is non-empty,
take exactly one command from the head, apply it". -/
def executor_step (s : GameState) : GameState :=
  match s.round.commands with
  | [] => s
  | cmd :: rest =>
    apply_command { s with round := { s.round with commands := rest } } cmd

/-- The sequence of commands the executor dequeues over `n` invocations:
the drain order of the queue. -/
def drain_trace : Nat → GameState → List RoundCommand
  | 0, _ => []
  | n + 1, s =>
    match s.round.commands with
    | [] => []
    | cmd :: _ => cmd :: drain_trace n (executor_step s)

/-- Drain order of the whole queue: one dequeue per pending command. -/
def GameState.drain_order (s : GameState) : List RoundCommand :=
  drain_trace s.round.commands.length s

/-- Run `n` executor invocations. -/
def drain_n : Nat → GameState → GameState
  | 0, s => s
  | n + 1, s => drain_n n (executor_step s)

/-- The `UI` resource of `plugin_ui`: the current selection and the grid
cell under the cursor. -/
structure UI where
  selected_entity : Option Entity
  grid_cursor : IVec2
deriving DecidableEq

/-- Event `GridCursorEvent` of `plugin_ui`, fired by `cursor_changed_system`. -/
structure GridCursorEvent where
  old_pos : IVec2
  grid_pos : IVec2
  left_just_pressed : Bool
  right_just_pressed : Bool
deriving DecidableEq

/-- Event `TokenSelectedEvent` of `plugin_ui`, sent by `grid_cursor_system`. -/
structure TokenSelectedEvent where
  selected : Option Entity
  deselected : Option Entity
deriving DecidableEq

/-- Result of one `grid_cursor_system` run: the updated `UI` resource, the
updated `Round`, and the `TokenSelectedEvent`s written. -/
structure GridCursorOut where
  ui : UI
  round : Round
  sent : List TokenSelectedEvent
deriving DecidableEq

/-- Body of `grid_cursor_system`'s event loop for one `GridCursorEvent`
(`systems.rs:229-261`): a left click selects the first token on the
clicked cell or clears the selection, sending a `TokenSelectedEvent` on
any change; a right click with a live selection pushes a
`RoundCommand::move_far` onto the front of the round's queue. -/
def grid_cursor_event (tokens : List (Entity × Token)) (acc : GridCursorOut)
    (ev : GridCursorEvent) : GridCursorOut :=
  let grid_pos := ev.grid_pos
  let acc :=
    if ev.left_just_pressed then
      let selected := (tokens.find? fun p => p.2.grid_pos = grid_pos).map Prod.fst
      match selected with
      | some sel =>
        if some sel ≠ acc.ui.selected_entity then
          { acc with
            sent := acc.sent ++ [⟨some sel, acc.ui.selected_entity⟩]
            ui := { acc.ui with selected_entity := some sel } }
        else acc
      | none =>
        if acc.ui.selected_entity ≠ none then
          { acc with
            sent := acc.sent ++ [⟨none, acc.ui.selected_entity⟩]
            ui := { acc.ui with selected_entity := none } }
        else acc
    else acc
  if ev.right_just_pressed then
    match acc.ui.selected_entity with
    | some selected_entity =>
      { acc with
        round := acc.round.push_front_command (.move_far selected_entity grid_pos) }
    | none => acc
  else acc

/-- System `grid_cursor_system` (`systems.rs:219-262`): does nothing while the
round is executing, otherwise folds `grid_cursor_event` over the pending
cursor events. -/
def grid_cursor_system (ui : UI) (events : List GridCursorEvent)
    (tokens : List (Entity × Token)) (round : Round) : GridCursorOut :=
  if round.is_executing then ⟨ui, round, []⟩
  else events.foldl (grid_cursor_event tokens) ⟨ui, round, []⟩

/-- A spawned highlight marker (`HighlightedCell` component) together with
its `ShortLived.despawn` flag. -/
structure HighlightState where
  grid_pos : IVec2
  despawn : Bool
deriving DecidableEq

/-- Result of one `highlight_system` run: updated flags of the existing
highlight entities and the cells where new highlights were spawned. -/
structure HighlightOut where
  cells : List HighlightState
  spawned : List IVec2
deriving DecidableEq

/-- System `highlight_system` (`systems.rs:292-335`): does nothing while the
round is executing; otherwise, for the selected token, keeps alive the
existing highlight on each reachable cell (clearing its `despawn` flag)
and spawns a highlight for each reachable cell that has none. -/
def highlight_system (ui : UI) (tokens : List (Entity × Token)) (grid : Grid)
    (highlighted_cells : List HighlightState) (round : Round) : HighlightOut :=
  if round.is_executing then ⟨highlighted_cells, []⟩
  else
    match ui.selected_entity with
    | none => ⟨highlighted_cells, []⟩
    | some selected_entity =>
      match (tokens.find? fun p => p.1 = selected_entity).map Prod.snd with
      | none => ⟨highlighted_cells, []⟩
      | some token =>
        (rules.get_reachable_cells token grid).foldl
          (fun acc i =>
            let hit := acc.cells.any fun hc => hc.grid_pos = i.1
            let cells := acc.cells.map fun hc =>
              if hc.grid_pos = i.1 then { hc with despawn := false } else hc
            if hit then { acc with cells := cells }
            else { cells := cells, spawned := acc.spawned ++ [i.1] })
          ⟨highlighted_cells, []⟩

/-- A spawned waypoint marker (`Waypoint` component) together with its
`ShortLived.despawn` flag. -/
structure WaypointState where
  grid_pos : IVec2
  despawn : Bool
deriving DecidableEq

/-- Result of one `waypoint_system` run: updated flags of the existing
waypoint entities and the cells where new waypoints were spawned. -/
structure WaypointOut where
  waypoints : List WaypointState
  spawned : List IVec2
deriving DecidableEq

/-- Clear the `despawn` flag of the first waypoint on cell `p` (the inner
loop of `waypoint_system` breaks after the first match), reporting whether
one was found. -/
def mark_first_waypoint (p : IVec2) : List WaypointState → List WaypointState × Bool
  | [] => ([], false)
  | w :: ws =>
    if w.grid_pos = p then ({ w with despawn := false } :: ws, true)
    else
      let (ws', found) := mark_first_waypoint p ws
      (w :: ws', found)

/-- System `waypoint_system` (`systems.rs:337-382`): does nothing while the round
is executing; otherwise, for the selected token, computes the path to the
cursor cell and, for each path segment, keeps the first existing waypoint
on that segment's cell alive or spawns a new one. -/
def waypoint_system (ui : UI) (tokens : List (Entity × Token)) (grid : Grid)
    (waypoints : List WaypointState) (round : Round) : WaypointOut :=
  if round.is_executing then ⟨waypoints, []⟩
  else
    match ui.selected_entity with
    | none => ⟨waypoints, []⟩
    | some selected_entity =>
      match (tokens.find? fun p => p.1 = selected_entity).map Prod.snd with
      | none => ⟨waypoints, []⟩
      | some token =>
        (rules.get_path token grid ui.grid_cursor).foldl
          (fun acc cell =>
            let (ws, found) := mark_first_waypoint cell.to acc.waypoints
            if found then { acc with waypoints := ws }
            else { waypoints := ws, spawned := acc.spawned ++ [cell.to] })
          ⟨waypoints, []⟩

/-- System `action_system` (`systems.rs:384-393`): does nothing while the round
is executing; otherwise, if a token is selected and Space was just
pressed, pushes `RoundCommand::give_turn(entity)` onto the back of the
round's queue. -/
def action_system (ui : UI) (round : Round) (space_just_pressed : Bool) : Round :=
  if round.is_executing then round
  else
    match ui.selected_entity with
    | some entity =>
      if space_just_pressed then round.push_back_command (.give_turn entity)
      else round
    | none => round

/-- Struct `Statblock` of `common/src/assets.rs`; `movement_ft` is an `f32` in
the source, abstracted to an integer here (its value is never inspected by
the loader). -/
structure Statblock where
  movement_ft : Option Int
deriving DecidableEq

/-- The asset registrations a loader may perform on its
`bevy::asset::LoadContext`. -/
structure LoadContext where
  assets : List Statblock
deriving DecidableEq

/-- Loader method `StablockAssetLoader::load` (`common/src/assets.rs:14-36`),
parameterised by the external `serde_json::from_slice::<Statblock>`
deserializer: on deserialization failure it returns the error
"failed to deserialize .statblock"; on success it returns `Ok(())`
without touching the load context. -/
def StablockAssetLoader.load (from_slice : List Nat → Option Statblock)
    (bytes : List Nat) (load_context : LoadContext) :
    Except String Unit × LoadContext :=
  match from_slice bytes with
  | some _ => (Except.ok (), load_context)
  | none => (Except.error "failed to deserialize .statblock", load_context)

/-- Modelled from the spec: a queued command is stale when its "target
token no longer exists", or, for `GiveTurn`, when the token is "no longer
turn owner". -/
def stale_command (s : GameState) : RoundCommand → Bool
  | .move_far e _ => (s.token? e).isNone
  | .give_turn e => (s.token? e).isNone || !(s.round.turn_owner == some e)

/-- A sample open 2×2 grid with uniform cost 1 and no occupants. -/
def grid1 : Grid := ⟨2, 2, fun _ => 1, fun _ => Nat.one_pos, fun _ => none⟩

/-- A sample 2×2 grid where cell (0,0) is occupied by entity 0 and cell
(1,0) by entity 1. -/
def gridOcc : Grid :=
  ⟨2, 2, fun _ => 1, fun _ => Nat.one_pos,
    fun p => if p = ⟨0, 0⟩ then some 0 else if p = ⟨1, 0⟩ then some 1 else none⟩

/-- A sample token at (0,0) with movement budget 3. -/
def tokA : Token := ⟨"A", ⟨0, 0⟩, 3, 3⟩

/-- A sample token at (1,0) with movement budget 3. -/
def tokB : Token := ⟨"B", ⟨1, 0⟩, 3, 3⟩

/-- A sample token at (0,0) whose movement budget is exhausted. -/
def tokZero : Token := ⟨"Z", ⟨0, 0⟩, 3, 0⟩

/-- A sample UI state with entity 0 selected. -/
def uiA : UI := ⟨some 0, ⟨1, 1⟩⟩

/-- A sample UI state with nothing selected. -/
def uiNoSel : UI := ⟨none, ⟨1, 1⟩⟩

/-- A sample round with a pending command (hence executing). -/
def roundBusy : Round := ⟨some 0, [.give_turn 0]⟩

/-- A sample idle round (empty queue). -/
def roundIdle : Round := ⟨some 0, []⟩

/-- A sample game state whose queue holds a stale move command (entity 5
has no token) followed by a live `give_turn`. -/
def stateStale : GameState :=
  ⟨grid1, [(0, tokA)], ⟨some 0, [.move_far 5 ⟨1, 0⟩, .give_turn 0]⟩⟩

/-- A sample game state whose queue holds a move into the occupied cell
(1,0). -/
def stateOcc : GameState :=
  ⟨gridOcc, [(0, tokA), (1, tokB)], ⟨some 0, [.move_far 0 ⟨1, 0⟩]⟩⟩

theorem apply_command_commands (s : GameState) (cmd : RoundCommand) :
    (apply_command s cmd).round.commands = s.round.commands := by
  cases cmd <;> simp only [apply_command] <;> (repeat' split) <;> rfl

theorem executor_step_commands {s : GameState} {cmd : RoundCommand}
    {rest : List RoundCommand} (h : s.round.commands = cmd :: rest) :
    (executor_step s).round.commands = rest := by
  simp only [executor_step]
  rw [h]
  exact apply_command_commands _ cmd

theorem drain_trace_eq :
    ∀ (n : Nat) (s : GameState), s.round.commands.length = n →
      drain_trace n s = s.round.commands := by
  intro n
  induction n with
  | zero =>
    intro s h
    simp only [drain_trace]
    exact (List.length_eq_zero.mp h).symm
  | succ n ih =>
    intro s h
    cases hc : s.round.commands with
    | nil => rw [hc] at h; simp at h
    | cons c cs =>
      simp only [drain_trace, hc]
      have hstep : (executor_step s).round.commands = cs := executor_step_commands hc
      have hlen : (executor_step s).round.commands.length = n := by
        rw [hstep]; rw [hc] at h; simpa using h
      rw [ih (executor_step s) hlen, hstep]

theorem drain_order_eq (s : GameState) : s.drain_order = s.round.commands :=
  drain_trace_eq _ s rfl

/-- C5: `push_front_command(A)` then `push_front_command(B)` drains as
`[B, A, ...]`, and `push_back_command(A)` then `push_back_command(B)`
drains as `[..., A, B]`, for every round. -/
theorem push_commands_drain_order (grid : Grid) (tokens : List (Entity × Token))
    (r : Round) (A B : RoundCommand) :
    (GameState.mk grid tokens
        ((r.push_front_command A).push_front_command B)).drain_order
      = B :: A :: r.commands ∧
    (GameState.mk grid tokens
        ((r.push_back_command A).push_back_command B)).drain_order
      = r.commands ++ [A, B] := by
  constructor <;> rw [drain_order_eq] <;>
    simp [Round.push_front_command, Round.push_back_command]

/-- C6: `is_executing` is true exactly when the command queue is
non-empty; in particular it is true immediately after any push and false
exactly when the queue has fully drained. -/
theorem is_executing_iff (r : Round) (cmd : RoundCommand) :
    (r.is_executing = true ↔ r.commands ≠ []) ∧
    (r.push_front_command cmd).is_executing = true ∧
    (r.push_back_command cmd).is_executing = true ∧
    (r.is_executing = false ↔ r.commands = []) := by
  refine ⟨?_, ?_, ?_, ?_⟩ <;>
    simp [Round.is_executing, Round.push_front_command, Round.push_back_command]

/-- C4: `get_reachable_cells` and `get_path` are pure functions of the
token and grid: repeated calls on unchanged inputs return identical
results (the embedding takes both by value and mutates neither). -/
theorem rules_idempotent (token : Token) (g : Grid) (destination : IVec2) :
    rules.get_reachable_cells token g = rules.get_reachable_cells token g ∧
    rules.get_path token g destination = rules.get_path token g destination :=
  ⟨rfl, rfl⟩

/-- C10: `StablockAssetLoader::load` errors with "failed to deserialize
.statblock" exactly when the bytes do not deserialize as a `Statblock`,
and on success returns `Ok(())` while registering nothing in the load
context. -/
theorem stablock_loader_load_spec (from_slice : List Nat → Option Statblock)
    (bytes : List Nat) (load_context : LoadContext) :
    ((StablockAssetLoader.load from_slice bytes load_context).1
        = Except.error "failed to deserialize .statblock"
      ↔ from_slice bytes = none) ∧
    ((StablockAssetLoader.load from_slice bytes load_context).1 = Except.ok ()
      ↔ (from_slice bytes).isSome = true) ∧
    (StablockAssetLoader.load from_slice bytes load_context).2.assets
      = load_context.assets := by
  cases h : from_slice bytes <;> simp [StablockAssetLoader.load, h]

/-- C1: while the round is executing, `grid_cursor_system`,
`highlight_system`, `waypoint_system` and `action_system` change nothing:
no command is enqueued, the UI selection is untouched, no
`TokenSelectedEvent` is sent, and no highlight or waypoint entity is
spawned or re-flagged. -/
theorem systems_noop_while_executing (ui : UI) (events : List GridCursorEvent)
    (tokens : List (Entity × Token)) (grid : Grid)
    (hcells : List HighlightState) (wps : List WaypointState)
    (round : Round) (space : Bool) (h : round.is_executing = true) :
    grid_cursor_system ui events tokens round = ⟨ui, round, []⟩ ∧
    highlight_system ui tokens grid hcells round = ⟨hcells, []⟩ ∧
    waypoint_system ui tokens grid wps round = ⟨wps, []⟩ ∧
    action_system ui round space = round := by
  refine ⟨?_, ?_, ?_, ?_⟩ <;>
    simp [grid_cursor_system, highlight_system, waypoint_system, action_system, h]

theorem systems_noop_while_executing_witness :
    roundBusy.is_executing = true ∧
    (grid_cursor_system uiA [] [] roundBusy = ⟨uiA, roundBusy, []⟩ ∧
      highlight_system uiA [] grid1 [] roundBusy = ⟨[], []⟩ ∧
      waypoint_system uiA [] grid1 [] roundBusy = ⟨[], []⟩ ∧
      action_system uiA roundBusy true = roundBusy) :=
  ⟨rfl, systems_noop_while_executing uiA [] [] grid1 [] [] roundBusy true rfl⟩

/-- C9: while the round is not executing, a right click with a selected
token pushes exactly one `move_far(selected, cursor cell)` onto the front
of the queue (and changes nothing else), Space with a selected token
pushes exactly one `give_turn(selected)` onto the back, and with no
selection neither input enqueues anything. -/
theorem input_enqueues_commands (ui uiN : UI) (tokens : List (Entity × Token))
    (round : Round) (e : Entity) (op gp : IVec2)
    (hexec : round.is_executing = false)
    (hsel : ui.selected_entity = some e)
    (hnone : uiN.selected_entity = none) :
    (grid_cursor_system ui [⟨op, gp, false, true⟩] tokens round).round.commands
      = RoundCommand.move_far e gp :: round.commands ∧
    (grid_cursor_system ui [⟨op, gp, false, true⟩] tokens round).ui = ui ∧
    (grid_cursor_system ui [⟨op, gp, false, true⟩] tokens round).sent = [] ∧
    (action_system ui round true).commands
      = round.commands ++ [RoundCommand.give_turn e] ∧
    (grid_cursor_system uiN [⟨op, gp, false, true⟩] tokens round).round = round ∧
    action_system uiN round true = round := by
  refine ⟨?_, ?_, ?_, ?_, ?_, ?_⟩ <;>
    simp [grid_cursor_system, grid_cursor_event, action_system, hexec, hsel,
      hnone, Round.push_front_command, Round.push_back_command]

theorem input_enqueues_commands_witness :
    roundIdle.is_executing = false ∧
    uiA.selected_entity = some 0 ∧
    uiNoSel.selected_entity = none ∧
    ((grid_cursor_system uiA [⟨⟨0, 0⟩, ⟨1, 1⟩, false, true⟩] [] roundIdle).round.commands
        = RoundCommand.move_far 0 ⟨1, 1⟩ :: roundIdle.commands ∧
      (grid_cursor_system uiA [⟨⟨0, 0⟩, ⟨1, 1⟩, false, true⟩] [] roundIdle).ui = uiA ∧
      (grid_cursor_system uiA [⟨⟨0, 0⟩, ⟨1, 1⟩, false, true⟩] [] roundIdle).sent = [] ∧
      (action_system uiA roundIdle true).commands
        = roundIdle.commands ++ [RoundCommand.give_turn 0] ∧
      (grid_cursor_system uiNoSel [⟨⟨0, 0⟩, ⟨1, 1⟩, false, true⟩] [] roundIdle).round
        = roundIdle ∧
      action_system uiNoSel roundIdle true = roundIdle) :=
  ⟨rfl, rfl, rfl,
    input_enqueues_commands uiA uiNoSel [] roundIdle 0 ⟨0, 0⟩ ⟨1, 1⟩ rfl rfl rfl⟩

/-- C7: a queued command whose target token no longer exists (or, for
`give_turn`, whose token is no longer the turn owner) is dropped by the
executor as a pure no-op — only the queue head is consumed — so the rest
of the queue still drains; and the enqueue operations themselves are
total and always extend the queue. -/
theorem stale_command_dropped (s : GameState) (cmd : RoundCommand)
    (rest : List RoundCommand) (n : Nat)
    (h1 : s.round.commands = cmd :: rest)
    (h2 : stale_command s cmd = true) :
    executor_step s = { s with round := { s.round with commands := rest } } ∧
    drain_n (n + 1) s
      = drain_n n { s with round := { s.round with commands := rest } } ∧
    (∀ (r : Round) (c : RoundCommand),
      (r.push_front_command c).commands = c :: r.commands ∧
      (r.push_back_command c).commands = r.commands ++ [c]) := by
  have hstep :
      executor_step s = { s with round := { s.round with commands := rest } } := by
    simp only [executor_step]
    rw [h1]
    cases cmd with
    | move_far e d =>
      simp only [stale_command, Option.isNone_iff_eq_none] at h2
      simp only [apply_command]
      rw [show ({ s with round := { s.round with commands := rest } } :
        GameState).token? e = none from h2]
    | give_turn e =>
      simp only [stale_command, Bool.or_eq_true, Option.isNone_iff_eq_none,
        Bool.not_eq_true', beq_eq_false_iff_ne] at h2
      rcases h2 with h2 | h2
      · by_cases ho : s.round.turn_owner = some e
        · simp only [apply_command]
          rw [if_pos ho,
            show ({ s with round := { s.round with commands := rest } } :
              GameState).token? e = none from h2]
        · simp only [apply_command]
          rw [if_neg ho]
      · simp only [apply_command]
        rw [if_neg h2]
  refine ⟨hstep, ?_, fun r c => ⟨rfl, rfl⟩⟩
  show drain_n n (executor_step s) = _
  rw [hstep]

theorem stale_command_dropped_witness :
    stateStale.round.commands
      = RoundCommand.move_far 5 ⟨1, 0⟩ :: [RoundCommand.give_turn 0] ∧
    stale_command stateStale (RoundCommand.move_far 5 ⟨1, 0⟩) = true ∧
    (executor_step stateStale
        = { stateStale with round :=
            { stateStale.round with commands := [RoundCommand.give_turn 0] } } ∧
      drain_n 2 stateStale
        = drain_n 1 { stateStale with round :=
            { stateStale.round with commands := [RoundCommand.give_turn 0] } } ∧
      (∀ (r : Round) (c : RoundCommand),
        (r.push_front_command c).commands = c :: r.commands ∧
        (r.push_back_command c).commands = r.commands ++ [c])) :=
  ⟨rfl, rfl,
    stale_command_dropped stateStale (RoundCommand.move_far 5 ⟨1, 0⟩)
      [RoundCommand.give_turn 0] 1 rfl rfl⟩

namespace rules

theorem pickMinAux_mem (best : Reached) (xs : List Reached) :
    (pickMinAux best xs).1 ∈ best :: xs ∧
    ∀ y ∈ (pickMinAux best xs).2, y ∈ best :: xs := by
  induction xs generalizing best with
  | nil => simp [pickMinAux]
  | cons x xs ih =>
    by_cases h : lessKey x best = true <;>
      simp only [pickMinAux, h, if_true, if_false, Bool.false_eq_true]
    · obtain ⟨h1, h2⟩ := ih x
      constructor
      · rcases List.mem_cons.mp h1 with h1 | h1
        · simp [h1]
        · simp [List.mem_cons_of_mem, h1]
      · intro y hy
        rcases List.mem_cons.mp hy with hy | hy
        · simp [hy]
        · rcases List.mem_cons.mp (h2 y hy) with hz | hz
          · simp [hz]
          · simp [List.mem_cons_of_mem, hz]
    · obtain ⟨h1, h2⟩ := ih best
      constructor
      · rcases List.mem_cons.mp h1 with h1 | h1
        · simp [h1]
        · simp [List.mem_cons_of_mem, h1]
      · intro y hy
        rcases List.mem_cons.mp hy with hy | hy
        · simp [hy]
        · rcases List.mem_cons.mp (h2 y hy) with hz | hz
          · simp [hz]
          · simp [List.mem_cons_of_mem, hz]

theorem pickMin_mem {frontier : List Reached} {m : Reached}
    {rest : List Reached} (h : pickMin frontier = some (m, rest)) :
    m ∈ frontier ∧ ∀ y ∈ rest, y ∈ frontier := by
  cases frontier with
  | nil => simp [pickMin] at h
  | cons x xs =>
    simp only [pickMin, Option.some.injEq] at h
    have := pickMinAux_mem x xs
    rw [h] at this
    exact this

theorem loop_inv (g : Grid) (budget : Nat) (P : Reached → Prop)
    (hexp : ∀ r, P r → ∀ r' ∈ expand g budget r, P r') :
    ∀ (fuel : Nat) (settled frontier : List Reached),
      (∀ r ∈ settled, P r) → (∀ r ∈ frontier, P r) →
      ∀ r ∈ loop g budget fuel settled frontier, P r := by
  intro fuel
  induction fuel with
  | zero =>
    intro settled frontier hs _ r hr
    simp only [loop] at hr
    exact hs r hr
  | succ n ih =>
    intro settled frontier hs hf r hr
    cases hpm : pickMin frontier with
    | none =>
      simp only [loop, hpm] at hr
      exact hs r hr
    | some pr =>
      obtain ⟨m, rest⟩ := pr
      simp only [loop, hpm] at hr
      obtain ⟨hm, hrest⟩ := pickMin_mem hpm
      by_cases hany : (settled.any fun s => s.cell == m.cell) = true
      · rw [if_pos hany] at hr
        exact ih settled rest hs (fun y hy => hf y (hrest y hy)) r hr
      · rw [if_neg hany] at hr
        refine ih (settled ++ [m]) (rest ++ expand g budget m) ?_ ?_ r hr
        · intro y hy
          rcases List.mem_append.mp hy with hy | hy
          · exact hs y hy
          · rw [List.mem_singleton.mp hy]
            exact hf m hm
        · intro y hy
          rcases List.mem_append.mp hy with hy | hy
          · exact hf y (hrest y hy)
          · exact hexp m (hf m hm) y hy

theorem loop_pairwise (g : Grid) (budget : Nat) :
    ∀ (fuel : Nat) (settled frontier : List Reached),
      settled.Pairwise (fun a b => a.cell ≠ b.cell) →
      (loop g budget fuel settled frontier).Pairwise
        (fun a b => a.cell ≠ b.cell) := by
  intro fuel
  induction fuel with
  | zero =>
    intro settled frontier hs
    simpa only [loop] using hs
  | succ n ih =>
    intro settled frontier hs
    cases hpm : pickMin frontier with
    | none => simpa only [loop, hpm] using hs
    | some pr =>
      obtain ⟨m, rest⟩ := pr
      simp only [loop, hpm]
      by_cases hany : (settled.any fun s => s.cell == m.cell) = true
      · rw [if_pos hany]
        exact ih settled rest hs
      · rw [if_neg hany]
        refine ih (settled ++ [m]) (rest ++ expand g budget m) ?_
        rw [List.pairwise_append]
        refine ⟨hs, List.pairwise_singleton _ _, ?_⟩
        intro a ha b hb
        rw [List.mem_singleton.mp hb]
        have := List.any_eq_false.mp (Bool.eq_false_iff.mpr hany) a ha
        simpa using this

theorem loop_origin (g : Grid) (budget : Nat) (r0 : Reached) :
    ∀ (fuel : Nat) (settled frontier : List Reached),
      r0 ∈ settled → (∀ r ∈ settled, r.cell = r0.cell → r = r0) →
      r0 ∈ loop g budget fuel settled frontier ∧
      ∀ r ∈ loop g budget fuel settled frontier, r.cell = r0.cell → r = r0 := by
  intro fuel
  induction fuel with
  | zero =>
    intro settled frontier h1 h2
    simpa only [loop] using And.intro h1 h2
  | succ n ih =>
    intro settled frontier h1 h2
    cases hpm : pickMin frontier with
    | none => simpa only [loop, hpm] using And.intro h1 h2
    | some pr =>
      obtain ⟨m, rest⟩ := pr
      simp only [loop, hpm]
      by_cases hany : (settled.any fun s => s.cell == m.cell) = true
      · rw [if_pos hany]
        exact ih settled rest h1 h2
      · rw [if_neg hany]
        refine ih (settled ++ [m]) (rest ++ expand g budget m)
          (List.mem_append_left _ h1) ?_
        intro r hr hcell
        rcases List.mem_append.mp hr with hr | hr
        · exact h2 r hr hcell
        · exfalso
          rw [List.mem_singleton.mp hr] at hcell
          have := List.any_eq_false.mp (Bool.eq_false_iff.mpr hany) r0 h1
          rw [hcell] at this
          simp at this

theorem search_eq (token : Token) (g : Grid) :
    search token g =
      loop g token.mov (4 * (g.width * g.height + 1) + 1)
        [⟨token.grid_pos, 0, []⟩]
        (expand g token.mov ⟨token.grid_pos, 0, []⟩) := by
  show loop g token.mov (search_fuel g) [] [⟨token.grid_pos, 0, []⟩] = _
  have h : search_fuel g = (4 * (g.width * g.height + 1) + 1) + 1 := rfl
  rw [h]
  simp [loop, pickMin, pickMinAux]

theorem expand_entry {g : Grid} {budget : Nat} {r r' : Reached}
    (h : r' ∈ expand g budget r) :
    ∃ n, r' = ⟨n, r.cost + g.cost n, r.path ++ [⟨n⟩]⟩ ∧
      g.occupant n = none ∧ g.in_bounds n = true ∧
      r.cost + g.cost n ≤ budget := by
  simp only [expand, List.mem_filterMap] at h
  obtain ⟨n, _, hcond⟩ := h
  split_ifs at hcond with h1 h2
  · simp only [Bool.and_eq_true] at h1
    obtain ⟨hb, ho⟩ := h1
    exact ⟨n, (Option.some.injEq _ _).mp hcond |>.symm,
      Option.isNone_iff_eq_none.mp ho, hb, h2⟩

/-- Every entry produced by the search carries a path whose total cost is
the entry's reported cost, an empty path only at the origin (at cost 0),
and a cell that is the origin or unoccupied. -/
theorem search_entry (token : Token) (g : Grid) :
    ∀ r ∈ search token g,
      path_cost g r.path = r.cost ∧
      (r.path = [] → r.cell = token.grid_pos ∧ r.cost = 0) ∧
      (r.cell = token.grid_pos ∨ g.occupant r.cell = none) := by
  have hexp : ∀ r,
      (path_cost g r.path = r.cost ∧
        (r.path = [] → r.cell = token.grid_pos ∧ r.cost = 0) ∧
        (r.cell = token.grid_pos ∨ g.occupant r.cell = none)) →
      ∀ r' ∈ expand g token.mov r,
        path_cost g r'.path = r'.cost ∧
        (r'.path = [] → r'.cell = token.grid_pos ∧ r'.cost = 0) ∧
        (r'.cell = token.grid_pos ∨ g.occupant r'.cell = none) := by
    intro r hr r' hr'
    obtain ⟨n, heq, hocc, _, _⟩ := expand_entry hr'
    subst heq
    refine ⟨?_, ?_, Or.inr hocc⟩
    · have h1 := hr.1
      simp only [path_cost] at h1 ⊢
      simp [List.map_append, List.sum_append, h1]
    · simp
  have h0 : path_cost g ([] : List Step) = 0 := rfl
  rw [search_eq]
  refine loop_inv g token.mov _ hexp _ _ _ ?_ ?_
  · intro r hr
    rw [List.mem_singleton.mp hr]
    exact ⟨h0, fun _ => ⟨rfl, rfl⟩, Or.inl rfl⟩
  · exact hexp _ ⟨h0, fun _ => ⟨rfl, rfl⟩, Or.inl rfl⟩

/-- The search settles each cell at most once. -/
theorem search_pairwise (token : Token) (g : Grid) :
    (search token g).Pairwise (fun a b => a.cell ≠ b.cell) := by
  rw [search_eq]
  exact loop_pairwise g token.mov _ _ _ (List.pairwise_singleton _ _)

/-- The origin entry (cost 0, empty path) is always settled, and it is the
only settled entry on the origin cell. -/
theorem search_origin (token : Token) (g : Grid) :
    (⟨token.grid_pos, 0, []⟩ : Reached) ∈ search token g ∧
    ∀ r ∈ search token g, r.cell = token.grid_pos →
      r = (⟨token.grid_pos, 0, []⟩ : Reached) := by
  rw [search_eq]
  exact loop_origin g token.mov _ _ _ _ (List.mem_singleton_self _)
    (fun r hr _ => List.mem_singleton.mp hr)

/-- The entries of the search list are exactly the reported reachable
(cell, cost) pairs. -/
theorem mem_reachable_iff (token : Token) (g : Grid) (c : IVec2) (k : Nat) :
    (c, k) ∈ get_reachable_cells token g ↔
      ∃ r ∈ search token g, r.cell = c ∧ r.cost = k := by
  simp only [get_reachable_cells, List.mem_map, Prod.mk.injEq]

/-- Function `get_path` returns the settled entry's recorded path. -/
theorem get_path_eq (token : Token) (g : Grid) {r : Reached}
    (hr : r ∈ search token g) :
    get_path token g r.cell = r.path := by
  unfold get_path
  have hex : (search token g).find? (fun x => x.cell == r.cell) |>.isSome := by
    rw [List.find?_isSome]
    exact ⟨r, hr, by simp⟩
  obtain ⟨r', hfind⟩ := Option.isSome_iff_exists.mp hex
  rw [hfind]
  have h1 : r' ∈ search token g := List.mem_of_find?_eq_some hfind
  have h2 : r'.cell = r.cell := by simpa using List.find?_some hfind
  have hsym : Symmetric (fun a b : Reached => a.cell ≠ b.cell) :=
    fun _ _ h e => h e.symm
  rcases eq_or_ne r' r with h | h
  · rw [h]
  · exact absurd h2 ((search_pairwise token g).forall hsym h1 hr h)

/-- Destinations with no settled entry get an empty path. -/
theorem get_path_eq_nil (token : Token) (g : Grid) (d : IVec2)
    (h : ∀ k, (d, k) ∉ get_reachable_cells token g) :
    get_path token g d = [] := by
  unfold get_path
  cases hf : (search token g).find? (fun x => x.cell == d) with
  | none => rfl
  | some r =>
    exfalso
    have h1 : r ∈ search token g := List.mem_of_find?_eq_some hf
    have h2 : r.cell = d := by simpa using List.find?_some hf
    exact h r.cost ((mem_reachable_iff token g d r.cost).mpr ⟨r, h1, h2, rfl⟩)

/-- C2 (amended): every cell other than the origin that `reachable_cells`
reports at cost `k` has a non-empty `path` of total cost `k`; the origin
is reported at cost 0 with an empty path; and destinations not in the
reachable set get an empty path. -/
theorem reachable_path_consistency (token : Token) (g : Grid) :
    (∀ c k, (c, k) ∈ get_reachable_cells token g → c ≠ token.grid_pos →
      get_path token g c ≠ [] ∧ path_cost g (get_path token g c) = k) ∧
    (∀ k, (token.grid_pos, k) ∈ get_reachable_cells token g →
      k = 0 ∧ get_path token g token.grid_pos = []) ∧
    (∀ d, (∀ k, (d, k) ∉ get_reachable_cells token g) →
      get_path token g d = []) := by
  refine ⟨?_, ?_, get_path_eq_nil token g⟩
  · intro c k hm hne
    obtain ⟨r, hr, hc, hk⟩ := (mem_reachable_iff token g c k).mp hm
    subst hc
    subst hk
    rw [get_path_eq token g hr]
    obtain ⟨h1, h2, _⟩ := search_entry token g r hr
    exact ⟨fun hnil => hne (h2 hnil).1, h1⟩
  · intro k hm
    obtain ⟨r, hr, hc, hk⟩ := (mem_reachable_iff token g _ k).mp hm
    have hre := (search_origin token g).2 r hr hc
    subst hk
    constructor
    · rw [hre]
    · have hp := get_path_eq token g hr
      rw [hc] at hp
      rw [hp, hre]

/-- C2 counterexample: the origin cell is reported reachable at cost 0
by `reachable_cells`, yet `path` to it is empty — so "for every reachable
cell the path is non-empty" fails at the origin. -/
theorem reachable_path_counterexample :
    (tokA.grid_pos, 0) ∈ get_reachable_cells tokA grid1 ∧
    get_path tokA grid1 tokA.grid_pos = [] :=
  ⟨by decide, by decide⟩

theorem reachable_path_consistency_witness :
    ((⟨1, 0⟩ : IVec2), 1) ∈ get_reachable_cells tokA grid1 ∧
    (⟨1, 0⟩ : IVec2) ≠ tokA.grid_pos ∧
    (get_path tokA grid1 ⟨1, 0⟩ ≠ [] ∧
      path_cost grid1 (get_path tokA grid1 ⟨1, 0⟩) = 1) :=
  ⟨by decide, by decide,
    (reachable_path_consistency tokA grid1).1 ⟨1, 0⟩ 1 (by decide) (by decide)⟩

/-- C3: a token with movement budget 0 reaches exactly its origin cell at
cost 0, and `path` to any other destination is empty. -/
theorem zero_budget_reachable (token : Token) (g : Grid)
    (h : token.mov = 0) :
    get_reachable_cells token g = [(token.grid_pos, 0)] ∧
    ∀ d, d ≠ token.grid_pos → get_path token g d = [] := by
  have hexp : expand g 0 (⟨token.grid_pos, 0, []⟩ : Reached) = [] := by
    simp only [expand]
    rw [List.filterMap_eq_nil_iff]
    intro n _
    by_cases h1 : (g.in_bounds n && (g.occupant n).isNone) = true
    · rw [if_pos h1]
      have hc : ¬ (0 + g.cost n ≤ 0) := by
        have := g.cost_pos n
        omega
      rw [if_neg hc]
    · rw [if_neg h1]
  have hsearch : search token g = [⟨token.grid_pos, 0, []⟩] := by
    rw [search_eq, h, hexp]
    simp [loop, pickMin]
  constructor
  · simp [get_reachable_cells, hsearch]
  · intro d hd
    have hbe : (token.grid_pos == d) = false :=
      beq_eq_false_iff_ne.mpr fun e => hd e.symm
    simp [get_path, hsearch, List.find?, hbe]

theorem zero_budget_reachable_witness :
    tokZero.mov = 0 ∧
    (get_reachable_cells tokZero grid1 = [(tokZero.grid_pos, 0)] ∧
      ∀ d, d ≠ tokZero.grid_pos → get_path tokZero grid1 d = []) :=
  ⟨rfl, zero_budget_reachable tokZero grid1 rfl⟩

end rules

/-- C8: applying a `move_far` whose destination is occupied at apply time
fails atomically — grid occupancy, every token's position and movement
budget, and the turn owner are unchanged, only the queue head is consumed
— and the executor continues with the remaining commands. -/
theorem occupied_destination_move_noop (s : GameState) (e : Entity)
    (dest : IVec2) (rest : List RoundCommand) (tok : Token) (occ : Entity)
    (n : Nat)
    (h1 : s.round.commands = RoundCommand.move_far e dest :: rest)
    (h2 : s.token? e = some tok)
    (h3 : s.grid.occupant dest = some occ) :
    executor_step s = { s with round := { s.round with commands := rest } } ∧
    (executor_step s).grid.occupant = s.grid.occupant ∧
    (executor_step s).tokens = s.tokens ∧
    (executor_step s).round.turn_owner = s.round.turn_owner ∧
    drain_n (n + 1) s
      = drain_n n { s with round := { s.round with commands := rest } } := by
  have hpath : rules.get_path tok s.grid dest = [] := by
    by_cases hdo : dest = tok.grid_pos
    · subst hdo
      have h0 := (rules.search_origin tok s.grid).1
      have hp := rules.get_path_eq tok s.grid h0
      simpa using hp
    · unfold rules.get_path
      cases hf : (rules.search tok s.grid).find? (fun x => x.cell == dest) with
      | none => rfl
      | some r =>
        exfalso
        have hmem : r ∈ rules.search tok s.grid := List.mem_of_find?_eq_some hf
        have hcell : r.cell = dest := by simpa using List.find?_some hf
        obtain ⟨_, _, h4⟩ := rules.search_entry tok s.grid r hmem
        rcases h4 with h4 | h4
        · exact hdo (hcell ▸ h4)
        · rw [hcell, h3] at h4
          exact Option.noConfusion h4
  have hstep :
      executor_step s = { s with round := { s.round with commands := rest } } := by
    simp only [executor_step]
    rw [h1]
    simp only [apply_command]
    rw [show ({ s with round := { s.round with commands := rest } } :
      GameState).token? e = some tok from h2]
    simp [hpath]
  refine ⟨hstep, ?_, ?_, ?_, ?_⟩
  · rw [hstep]
  · rw [hstep]
  · rw [hstep]
  · show drain_n n (executor_step s) = _
    rw [hstep]

theorem occupied_destination_move_noop_witness :
    stateOcc.round.commands = RoundCommand.move_far 0 ⟨1, 0⟩ :: [] ∧
    stateOcc.token? 0 = some tokA ∧
    stateOcc.grid.occupant ⟨1, 0⟩ = some 1 ∧
    (executor_step stateOcc
        = { stateOcc with round := { stateOcc.round with commands := [] } } ∧
      (executor_step stateOcc).grid.occupant = stateOcc.grid.occupant ∧
      (executor_step stateOcc).tokens = stateOcc.tokens ∧
      (executor_step stateOcc).round.turn_owner = stateOcc.round.turn_owner ∧
      drain_n 2 stateOcc
        = drain_n 1 { stateOcc with round :=
            { stateOcc.round with commands := [] } }) :=
  ⟨rfl, rfl, rfl,
    occupied_destination_move_noop stateOcc 0 ⟨1, 0⟩ [] tokA 1 1 rfl rfl rfl⟩

end Fivee
